import Mathlib

/-!
Verification of the copy-trading core: a shallow embedding of the
detection-and-replication pipeline (order replicator, order monitor,
decision strategies, lifecycle manager) together with theorems about the
properties the design documentation states.

Modelling conventions:
- Python floats are modelled as rationals (`ℚ`).
- Python dicts keyed by strings are modelled as association lists
  `List (String × α)` with insertion-order / overwrite-on-duplicate
  semantics (`dictInsert`), matching CPython dict behaviour.
- Asynchronous exchange calls are modelled as oracle functions returning
  `Except Err _`; a raised exception is the `Except.error` case.
- `asyncio.gather(..., return_exceptions := True)` is modelled by tasks of
  type `Except Err Bool`: a task that raises yields `Except.error`, which
  the result-collection loop converts to `false`.
- Logging is a pure side effect and is not modelled.
-/

namespace CopyBot

/-- Exception payloads raised by exchange calls and handlers. -/
abbrev Err := String

/-- Python dict assignment `d[k] = v`: overwrite in place when the key is
already present, append otherwise (CPython keeps first-insertion order). -/
def dictInsert {α : Type} (d : List (String × α)) (k : String) (v : α) :
    List (String × α) :=
  if k ∈ d.map Prod.fst then
    d.map (fun p => if p.1 = k then (p.1, v) else p)
  else
    d ++ [(k, v)]

/-- Python dict lookup `d.get(k)` (first matching key). -/
def dictGet {α : Type} (d : List (String × α)) (k : String) : Option α :=
  match d.find? (fun p => p.1 = k) with
  | some p => some p.2
  | none => none

/-- Key list of an association-list dict. -/
def keys {α : Type} (d : List (String × α)) : List String :=
  d.map Prod.fst

/-- An order dict as produced by the master account and consumed by the
replicator and the monitor (fields read by `replicate_order` and
`_monitor_loop`); `none` models an absent key. -/
structure MasterOrder where
  order_id : String
  symbol : String
  side : String
  order_type : String
  quantity : ℚ
  price : Option ℚ
  stop_price : Option ℚ
  reduce_only : Option Bool
  status : String
deriving DecidableEq, Repr

/-- The keyword-argument dict handed to `MEXCClient.place_order`
(`order_params` in `OrderReplicator.replicate_order`). -/
structure OrderParams where
  symbol : String
  side : String
  order_type : String
  quantity : ℚ
  price : Option ℚ
  stop_price : Option ℚ
  reduce_only : Bool
deriving DecidableEq, Repr

/-- The response dict of a successful `place_order` call. -/
structure PlaceResult where
  order_id : Option String
deriving DecidableEq, Repr

/-- One entry of `settings.slave_accounts`; `name` is optional because the
code reads it with `account.get("name", "Unknown")`. -/
structure Account where
  name : Option String
  api_key : String
  api_secret : String

/-- The behaviour of one slave `MEXCClient.place_order` call: an oracle
mapping the submitted parameters to a result or a raised exception. -/
abbrev Client := OrderParams → Except Err PlaceResult

/-- The slice of `config.Settings` the replication core reads. -/
structure Settings where
  copy_multiplier : ℚ
  enable_copying : Bool
  slave_accounts : List Account

/-- Account display key, `account.get("name", "Unknown")`. -/
def account_display_name (a : Account) : String :=
  a.name.getD "Unknown"

/-- Result map of one replication call, `{account_name: success}`. -/
abbrev ResultDict := List (String × Bool)

/-- Order parameters built by `replicate_order` (source lines 56-68):
`quantity = master_order["quantity"] * settings.copy_multiplier`, all other
fields taken from the master order, `reduce_only` defaulting to `False`. -/
def mk_order_params (master : MasterOrder) (mult : ℚ) : OrderParams :=
  { symbol := master.symbol
    side := master.side
    order_type := master.order_type
    quantity := master.quantity * mult
    price := master.price
    stop_price := master.stop_price
    reduce_only := master.reduce_only.getD false }

/-- Embedding of `OrderReplicator._place_order_on_account`: the whole body
is wrapped in `try/except Exception`, so a client call that raises is
caught and reported as `False`; a completed call reports `True`. -/
def place_order_on_account (client : Client) (order_params : OrderParams) :
    Bool :=
  match client order_params with
  | .ok _ => true
  | .error _ => false

/-- Conversion applied by the result-collection loop of `replicate_order`:
`isinstance(result, Exception)` becomes `False`, a boolean passes through. -/
def gather_outcome (r : Except Err Bool) : Bool :=
  match r with
  | .ok b => b
  | .error _ => false

/-- The result-collection loop of `replicate_order` (source lines 78-87):
`for account, result in zip(settings.slave_accounts, results):
result_dict[account.get("name", "Unknown")] = ...`. -/
def build_result_dict (accounts : List Account)
    (results : List (Except Err Bool)) : ResultDict :=
  (accounts.zip results).foldl
    (fun d ar => dictInsert d (account_display_name ar.1) (gather_outcome ar.2))
    []

/-- `OrderReplicator`: its only state is the client list built once per
account in `_init_clients`. -/
structure OrderReplicator where
  slave_clients : List Client

/-- Embedding of `OrderReplicator._init_clients`: one `MEXCClient` per
configured slave account; `exchange` is the oracle mapping credentials to
that client's behaviour. -/
def OrderReplicator.init (s : Settings) (exchange : String → String → Client) :
    OrderReplicator :=
  { slave_clients := s.slave_accounts.map (fun a => exchange a.api_key a.api_secret) }

/-- Embedding of `OrderReplicator.replicate_order`: computes the scaled
order parameters, launches one task per `zip(slave_clients, slave_accounts)`
pair (each task is `_place_order_on_account`, which never raises, so the
gathered value is `Except.ok`), and collects the result dict.  The method
writes no attribute, so the replicator state is returned unchanged. -/
def OrderReplicator.replicate_order (r : OrderReplicator) (s : Settings)
    (master : MasterOrder) : ResultDict × OrderReplicator :=
  (build_result_dict s.slave_accounts
      ((r.slave_clients.zip s.slave_accounts).map
        (fun ca =>
          Except.ok (place_order_on_account ca.1 (mk_order_params master s.copy_multiplier)))),
    r)

/-- The order parameters submitted to the slave clients in one
`replicate_order` call, one submission per `zip(slave_clients,
slave_accounts)` pair. -/
def OrderReplicator.replicate_order_submissions (r : OrderReplicator)
    (s : Settings) (master : MasterOrder) : List OrderParams :=
  (r.slave_clients.zip s.slave_accounts).map
    (fun _ => mk_order_params master s.copy_multiplier)

/-- Embedding of `OrderReplicator.replicate_cancel`: the body is
`pass` (a TODO stub), so the coroutine returns `None` — modelled as
`none` — instead of a per-account result dict. -/
def OrderReplicator.replicate_cancel (r : OrderReplicator) (s : Settings)
    (master : MasterOrder) : Option ResultDict :=
  none

/-- Embedding of `OrderReplicator.replicate_modify`: the body is
`pass` (a TODO stub), so the coroutine returns `None`. -/
def OrderReplicator.replicate_modify (r : OrderReplicator) (s : Settings)
    (master : MasterOrder) (changes : List (String × String)) :
    Option ResultDict :=
  none

/-- A slave client whose `place_order` call succeeds. -/
def okClient : Client := fun _ => Except.ok ⟨some "ok-1"⟩

/-- A slave client whose `place_order` call raises. -/
def failClient : Client := fun _ => Except.error "network down"

/-- A configured account named `A`. -/
def acctA : Account := ⟨some "A", "ka", "sa"⟩

/-- A configured account named `B`. -/
def acctB : Account := ⟨some "B", "kb", "sb"⟩

/-- A two-account configuration with multiplier 2. -/
def twoSettings : Settings := ⟨2, true, [acctA, acctB]⟩

/-- A replicator whose first client works and whose second raises. -/
def mixedReplicator : OrderReplicator := ⟨[okClient, failClient]⟩

/-- A concrete master order. -/
def sampleOrder : MasterOrder :=
  ⟨"o1", "BTC_USDT", "BUY", "MARKET", 1, none, none, none, "NEW"⟩

/-- Two distinct configured accounts sharing the display name `A`. -/
def dupSettings : Settings :=
  ⟨1, true, [⟨some "A", "k1", "s1"⟩, ⟨some "A", "k2", "s2"⟩]⟩

/-- A replicator with one working client per duplicate-named account. -/
def dupReplicator : OrderReplicator := ⟨[okClient, okClient]⟩

/-- A snapshot of open orders: the dict `{o["order_id"]: o for o in orders}`
kept in `OrderMonitor.last_orders`. -/
abbrev Snapshot := List (String × MasterOrder)

/-- Embedding of `current_orders_dict = {o["order_id"]: o for o in
current_orders}` (source line 67): a dict comprehension, so a duplicate id
overwrites the earlier entry. -/
def snapshot_of (orders : List MasterOrder) : Snapshot :=
  orders.foldl (fun d o => dictInsert d o.order_id o) []

/-- The three event kinds the monitor can emit in one poll cycle. -/
inductive ChangeEvent where
  | placed (order : MasterOrder)
  | modified (newOrder oldOrder : MasterOrder)
  | cancelled (order : MasterOrder)
deriving DecidableEq, Repr

/-- Order id that an emitted event refers to. -/
def ChangeEvent.event_id : ChangeEvent → String
  | .placed o => o.order_id
  | .modified n _ => n.order_id
  | .cancelled o => o.order_id

/-- Placed events of one poll cycle (source lines 69-72): ids present in
the current snapshot but not in the previous one, payload the new order. -/
def placed_events (last current : Snapshot) : List ChangeEvent :=
  (current.filter (fun p => p.1 ∉ keys last)).map (fun p => ChangeEvent.placed p.2)

/-- Modified events of one poll cycle (source lines 74-78): ids present in
both snapshots whose order dicts differ in any field, payload
`(new order, old order)`. -/
def modified_events (last current : Snapshot) : List ChangeEvent :=
  current.filterMap (fun p =>
    match dictGet last p.1 with
    | none => none
    | some old =>
      if p.2 ≠ old then some (ChangeEvent.modified p.2 old) else none)

/-- Cancelled events of one poll cycle (source lines 80-83): ids present
only in the previous snapshot, payload the old order. -/
def cancelled_events (last current : Snapshot) : List ChangeEvent :=
  (last.filter (fun p => p.1 ∉ keys current)).map (fun p => ChangeEvent.cancelled p.2)

/-- All events of one poll cycle, in emission order: all placed, then all
modified, then all cancelled. -/
def cycle_events (last current : Snapshot) : List ChangeEvent :=
  placed_events last current ++ modified_events last current ++
    cancelled_events last current

/-- Wellformedness of a snapshot as built by the monitor: keys are unique
and each entry is keyed by its order's id. -/
def WfSnapshot (d : Snapshot) : Prop :=
  (keys d).Nodup ∧ ∀ p ∈ d, p.1 = p.2.order_id

/-- An open order `o1` as first observed. -/
def worder1 : MasterOrder :=
  ⟨"o1", "BTC_USDT", "BUY", "LIMIT", 1, some 100, none, none, "NEW"⟩

/-- The same order `o1` after a partial fill changed its status field. -/
def worder1b : MasterOrder :=
  ⟨"o1", "BTC_USDT", "BUY", "LIMIT", 1, some 100, none, none, "PARTIALLY_FILLED"⟩

/-- A freshly observed order `o2`. -/
def worder2 : MasterOrder :=
  ⟨"o2", "ETH_USDT", "SELL", "MARKET", 3, none, none, none, "NEW"⟩

/-- Previous snapshot holding only `o1`. -/
def wLast : Snapshot := snapshot_of [worder1]

/-- Current snapshot: `o1` partially filled, `o2` new. -/
def wCurrent : Snapshot := snapshot_of [worder1b, worder2]

/-- Behaviour of one injected callback (`on_order_placed` etc.): the
handlers are awaited coroutines that may raise. -/
abbrev Handler := ChangeEvent → Except Err Unit

/-- Awaiting the handlers of a cycle one by one, in list order; a raised
exception aborts the remaining handler calls of the cycle. -/
def run_handlers (handler : Handler) : List ChangeEvent → Except Err Unit
  | [] => Except.ok ()
  | e :: rest =>
    match handler e with
    | .ok _ => run_handlers handler rest
    | .error err => Except.error err

/-- Mutable state of `OrderMonitor` read by the loop: the `running` flag
and `last_orders`. -/
structure MonitorState where
  running : Bool
  last_orders : Snapshot
deriving Repr

/-- The `try` block of one iteration of `_monitor_loop` (source lines
64-85): fetch the open orders, build the current snapshot dict, emit the
three event groups awaiting each handler, then assign `last_orders`.
Returns the snapshot to store, or the exception that escaped the block. -/
def cycle_attempt (fetch : Except Err (List MasterOrder)) (handler : Handler)
    (last : Snapshot) : Except Err Snapshot :=
  match fetch with
  | .error e => Except.error e
  | .ok orders =>
    match run_handlers handler (cycle_events last (snapshot_of orders)) with
    | .ok _ => Except.ok (snapshot_of orders)
    | .error e => Except.error e

/-- One full iteration of `_monitor_loop`: the `except Exception` clause
catches anything the `try` block raised, logs it, and leaves the state
untouched; on success `last_orders` is replaced wholesale. -/
def monitor_cycle (fetch : Except Err (List MasterOrder)) (handler : Handler)
    (st : MonitorState) : MonitorState :=
  match cycle_attempt fetch handler st.last_orders with
  | .ok current => { st with last_orders := current }
  | .error _ => st

/-- The `while self.running` loop, one (fetch result, handler behaviour)
pair per poll cycle. -/
def monitor_loop :
    MonitorState → List (Except Err (List MasterOrder) × Handler) →
      MonitorState
  | st, [] => st
  | st, c :: rest =>
    if st.running then monitor_loop (monitor_cycle c.1 c.2 st) rest else st

/-- A two-order fetch used by witnesses. -/
def wFetchOk : Except Err (List MasterOrder) := Except.ok [worder2]

/-- A handler that always succeeds. -/
def wHandler : Handler := fun _ => Except.ok ()

/-- A running monitor state whose snapshot holds `o1`. -/
def wState : MonitorState := ⟨true, snapshot_of [worder1]⟩

/-- Sequential state threading of awaited handlers: each handler call
completes and its effect is visible before the next call starts. -/
def run_handlers_state {σ : Type} (handler : ChangeEvent → σ → σ)
    (events : List ChangeEvent) (s : σ) : σ :=
  events.foldl (fun s e => handler e s) s

/-- The signal dict consulted by the strategies, restricted to the five
keys the code reads; `none` models an absent key. -/
structure SigDict where
  symbol : Option String
  side : Option String
  quantity : Option ℚ
  price : Option ℚ
  order_type : Option String
deriving DecidableEq, Repr

/-- Python truthiness of the signal dict (`if not signal`): a dict over
the consulted keys is falsy exactly when it is empty. -/
def SigDict.truthy (sg : SigDict) : Bool :=
  sg.symbol.isSome || sg.side.isSome || sg.quantity.isSome ||
    sg.price.isSome || sg.order_type.isSome

/-- The `market_data` argument of `analyze`: the keys the code reads. -/
structure MarketData where
  signal : Option SigDict
  timestamp : Option Int
deriving DecidableEq, Repr

/-- The signal dict returned by a successful `analyze`. -/
structure OutSignal where
  trader_id : Int
  symbol : Option String
  side : Option String
  quantity : Option ℚ
  price : Option ℚ
  order_type : String
  timestamp : Option Int
deriving DecidableEq, Repr

/-- Python `x in l` for an optional string: `None` is in no string list. -/
def optMem (x : Option String) (l : List String) : Bool :=
  match x with
  | some v => l.contains v
  | none => false

/-- Configuration of `FilteredCopyStrategy`; the constructor normalises
`allowed_symbols or []` and `exclude_symbols or []`. -/
structure FilteredCopyStrategy where
  trader_id : Int
  min_trade_size : ℚ
  allowed_symbols : List String
  exclude_symbols : List String
deriving DecidableEq, Repr

/-- `FilteredCopyStrategy.__init__`: `None` symbol lists become `[]`. -/
def FilteredCopyStrategy.ofConfig (trader_id : Int) (min_trade_size : ℚ)
    (allowed exclude : Option (List String)) : FilteredCopyStrategy :=
  ⟨trader_id, min_trade_size, allowed.getD [], exclude.getD []⟩

/-- The signal dict `FilteredCopyStrategy.analyze` returns on acceptance
(source lines 195-203): the filtered fields passed through unchanged,
`order_type` defaulting to `"MARKET"`. -/
def filtered_result (st : FilteredCopyStrategy) (md : MarketData)
    (sg : SigDict) : OutSignal :=
  { trader_id := st.trader_id
    symbol := sg.symbol
    side := sg.side
    quantity := sg.quantity
    price := sg.price
    order_type := sg.order_type.getD "MARKET"
    timestamp := md.timestamp }

/-- Embedding of `FilteredCopyStrategy.analyze` (source lines 165-203):
truthiness guard, then minimum trade size (`quantity*price`, each
defaulting to 0), then allow-list (only when non-empty), then deny-list;
the surviving signal is passed through. -/
def FilteredCopyStrategy.analyze (st : FilteredCopyStrategy)
    (md : MarketData) : Option OutSignal :=
  match md.signal with
  | none => none
  | some sg =>
    if !sg.truthy then none
    else if sg.quantity.getD 0 * sg.price.getD 0 < st.min_trade_size then none
    else if !st.allowed_symbols.isEmpty && !optMem sg.symbol st.allowed_symbols
      then none
    else if optMem sg.symbol st.exclude_symbols then none
    else some (filtered_result st md sg)

/-- The minimum-notional check of the filtered strategy: `quantity × price`
(defaults 0) must meet the configured floor. -/
def notional_check (st : FilteredCopyStrategy) (sg : SigDict) : Bool :=
  !(decide (sg.quantity.getD 0 * sg.price.getD 0 < st.min_trade_size))

/-- The allow-list check: vacuous when no allow-list is configured. -/
def allowlist_check (st : FilteredCopyStrategy) (sg : SigDict) : Bool :=
  st.allowed_symbols.isEmpty || optMem sg.symbol st.allowed_symbols

/-- The deny-list check: the symbol must not be excluded. -/
def denylist_check (st : FilteredCopyStrategy) (sg : SigDict) : Bool :=
  !(optMem sg.symbol st.exclude_symbols)

/-- Conjunction of the three filter checks of the filtered strategy. -/
def filter_checks_pass (st : FilteredCopyStrategy) (sg : SigDict) : Bool :=
  notional_check st sg && allowlist_check st sg && denylist_check st sg

/-- Configuration of `SimpleCopyStrategy`. -/
structure SimpleCopyStrategy where
  trader_id : Int
deriving DecidableEq, Repr

/-- Embedding of `SimpleCopyStrategy._validate_signal` (source lines
103-127): symbol, side and quantity must be present, the side must be one
of BUY/SELL/CLOSE, and the quantity must be positive. -/
def SimpleCopyStrategy.validate_signal (sg : SigDict) : Bool :=
  sg.symbol.isSome && sg.side.isSome && sg.quantity.isSome &&
    (match sg.side with
     | some sd => ["BUY", "SELL", "CLOSE"].contains sd
     | none => false) &&
    (match sg.quantity with
     | some q => decide (0 < q)
     | none => false)

/-- Embedding of `SimpleCopyStrategy.analyze` (source lines 77-101):
truthiness guard, validation, then pass-through. -/
def SimpleCopyStrategy.analyze (st : SimpleCopyStrategy) (md : MarketData) :
    Option OutSignal :=
  match md.signal with
  | none => none
  | some sg =>
    if !sg.truthy then none
    else if !SimpleCopyStrategy.validate_signal sg then none
    else some
      { trader_id := st.trader_id
        symbol := sg.symbol
        side := sg.side
        quantity := sg.quantity
        price := sg.price
        order_type := sg.order_type.getD "MARKET"
        timestamp := md.timestamp }

/-- A filtered strategy with zero floor and no symbol lists. -/
def noFilterStrategy : FilteredCopyStrategy := ⟨7, 0, [], []⟩

/-- A signal whose symbol is deny-listed as well as allow-listed. -/
def denySig : SigDict := ⟨some "BTC_USDT", some "BUY", some 2, some 3, none⟩

/-- A strategy that both allows and excludes `BTC_USDT`. -/
def denyStrategy : FilteredCopyStrategy := ⟨7, 0, ["BTC_USDT"], ["BTC_USDT"]⟩

/-- The empty signal dict `{}`, which Python's `if not signal` treats as
no signal at all. -/
def emptySig : SigDict := ⟨none, none, none, none, none⟩

/-- Market data carrying the empty signal dict. -/
def emptySigMd : MarketData := ⟨some emptySig, none⟩

/-- A truthy signal that fails `SimpleCopyStrategy._validate_signal`
(missing side) but passes the three filters of the filtered strategy. -/
def oddSig : SigDict := ⟨some "BTC_USDT", none, some 2, some 3, none⟩

/-- Market data carrying `oddSig`. -/
def oddMd : MarketData := ⟨some oddSig, some 5⟩

/-- Symbolic names for the three bound callbacks the manager hands to the
monitor (`_on_order_placed`, `_on_order_modified`, `_on_order_cancelled`). -/
inductive ManagerCallback where
  | placed
  | modified
  | cancelled
deriving DecidableEq, Repr

/-- The `OrderMonitor` object as the manager sees it: its running flag and
the three callbacks it was constructed with. -/
structure MonitorRef where
  running : Bool
  on_order_placed : ManagerCallback
  on_order_modified : ManagerCallback
  on_order_cancelled : ManagerCallback
deriving DecidableEq, Repr

/-- The mutable state of `CopyTradingManager`: the running flag, the
optional monitor, and an observational count of `OrderMonitor.start`
invocations. -/
structure ManagerState where
  running : Bool
  monitor : Option MonitorRef
  monitor_starts : Nat
deriving DecidableEq, Repr

/-- `CopyTradingManager.__init__`: not running, no monitor yet. -/
def ManagerState.init : ManagerState := ⟨false, none, 0⟩

/-- The monitor as constructed by `start` (source lines 53-58), with
`running := true` set by `OrderMonitor.start`. -/
def startedMonitor : MonitorRef :=
  ⟨true, ManagerCallback.placed, ManagerCallback.modified,
    ManagerCallback.cancelled⟩

/-- Embedding of `CopyTradingManager.start` (source lines 44-64): if
already running, warn and return; otherwise set the flag, construct the
monitor with the three callbacks and start it. -/
def ManagerState.start (st : ManagerState) : ManagerState :=
  if st.running then st
  else
    { running := true
      monitor := some startedMonitor
      monitor_starts := st.monitor_starts + 1 }

/-- Embedding of `CopyTradingManager.stop` (source lines 66-76): if not
running, return; otherwise clear the flag and, if a monitor exists, stop
it. -/
def ManagerState.stop (st : ManagerState) : ManagerState :=
  if !st.running then st
  else
    { running := false
      monitor := st.monitor.map (fun m => { m with running := false })
      monitor_starts := st.monitor_starts }

lemma keys_dictInsert {α : Type} (d : List (String × α)) (k : String) (v : α) :
    keys (dictInsert d k v) = if k ∈ keys d then keys d else keys d ++ [k] := by
  unfold dictInsert keys
  split
  · next h =>
    rw [List.map_map]
    apply List.map_congr_left
    intro p _
    dsimp only [Function.comp]
    split <;> rfl
  · next h =>
    simp

lemma mem_keys_dictInsert {α : Type} (d : List (String × α)) (k x : String)
    (v : α) : x ∈ keys (dictInsert d k v) ↔ x ∈ keys d ∨ x = k := by
  rw [keys_dictInsert]
  split
  · next h =>
    constructor
    · exact fun hx => Or.inl hx
    · rintro (hx | rfl)
      · exact hx
      · exact h
  · next h => simp

lemma nodup_keys_dictInsert {α : Type} (d : List (String × α)) (k : String)
    (v : α) (hnd : (keys d).Nodup) : (keys (dictInsert d k v)).Nodup := by
  rw [keys_dictInsert]
  split
  · exact hnd
  · next h => simp [List.nodup_append, hnd, h]

lemma dictInsert_of_not_mem {α : Type} (d : List (String × α)) (k : String)
    (v : α) (h : k ∉ keys d) : dictInsert d k v = d ++ [(k, v)] := by
  unfold keys at h
  unfold dictInsert
  rw [if_neg h]

lemma foldl_dictInsert_fresh {α : Type} :
    ∀ (l d : List (String × α)), (l.map Prod.fst).Nodup →
      (∀ k ∈ l.map Prod.fst, k ∉ keys d) →
      l.foldl (fun d kv => dictInsert d kv.1 kv.2) d = d ++ l := by
  intro l
  induction l with
  | nil => intro d _ _; simp
  | cons p t ih =>
    intro d hnd hfresh
    obtain ⟨k, v⟩ := p
    simp only [List.foldl_cons]
    rw [dictInsert_of_not_mem d k v (hfresh k (by simp))]
    have hnd' : (t.map Prod.fst).Nodup := (List.nodup_cons.mp (by simpa using hnd)).2
    have hfresh' : ∀ x ∈ t.map Prod.fst, x ∉ keys (d ++ [(k, v)]) := by
      intro x hx
      have hxk : x ≠ k := by
        intro hxe
        exact (List.nodup_cons.mp (by simpa using hnd)).1 (hxe ▸ hx)
      have hxd : x ∉ keys d := hfresh x (by simp [hx])
      simp only [keys, List.map_append, List.map_cons, List.map_nil,
        List.mem_append, List.mem_singleton]
      rintro (h1 | h2)
      · exact hxd h1
      · exact hxk h2
    rw [ih (d ++ [(k, v)]) hnd' hfresh']
    simp

lemma mem_keys_foldl_dictInsert {α : Type} (x : String) :
    ∀ (l d : List (String × α)),
      x ∈ keys (l.foldl (fun d kv => dictInsert d kv.1 kv.2) d) ↔
        x ∈ keys d ∨ x ∈ l.map Prod.fst := by
  intro l
  induction l with
  | nil => intro d; simp
  | cons p t ih =>
    intro d
    simp only [List.foldl_cons, List.map_cons, List.mem_cons]
    rw [ih, mem_keys_dictInsert]
    tauto

lemma nodup_keys_foldl_dictInsert {α : Type} :
    ∀ (l d : List (String × α)), (keys d).Nodup →
      (keys (l.foldl (fun d kv => dictInsert d kv.1 kv.2) d)).Nodup := by
  intro l
  induction l with
  | nil => intro d h; exact h
  | cons p t ih =>
    intro d h
    simp only [List.foldl_cons]
    exact ih _ (nodup_keys_dictInsert d p.1 p.2 h)

lemma build_result_dict_eq_map (accounts : List Account)
    (results : List (Except Err Bool))
    (hnd : ((accounts.zip results).map (fun ar => account_display_name ar.1)).Nodup) :
    build_result_dict accounts results =
      (accounts.zip results).map
        (fun ar => (account_display_name ar.1, gather_outcome ar.2)) := by
  unfold build_result_dict
  have hfold :
      (accounts.zip results).foldl
          (fun d ar =>
            dictInsert d (account_display_name ar.1) (gather_outcome ar.2)) [] =
        ((accounts.zip results).map
            (fun ar => (account_display_name ar.1, gather_outcome ar.2))).foldl
          (fun d kv => dictInsert d kv.1 kv.2) [] := by
    rw [List.foldl_map]
  rw [hfold]
  rw [foldl_dictInsert_fresh _ [] ?hn ?hf]
  · simp
  case hn =>
    rw [List.map_map]
    exact hnd
  case hf =>
    intro k _
    simp [keys]

lemma dictGet_get_of_nodup {α : Type} :
    ∀ (d : List (String × α)), (keys d).Nodup →
      ∀ (i : ℕ) (hi : i < d.length),
        dictGet d (d.get ⟨i, hi⟩).1 = some (d.get ⟨i, hi⟩).2 := by
  intro d
  induction d with
  | nil => intro _ i hi; exact absurd hi (by simp)
  | cons p t ih =>
    intro hnd i hi
    cases i with
    | zero =>
      unfold dictGet
      rw [List.find?_cons_of_pos _ (by simp)]
      rfl
    | succ j =>
      have hj : j < t.length := by simpa using hi
      have hmem : (t.get ⟨j, hj⟩).1 ∈ keys t := by
        exact List.mem_map.mpr ⟨t.get ⟨j, hj⟩, List.get_mem t j hj, rfl⟩
      have hne : p.1 ≠ (t.get ⟨j, hj⟩).1 := by
        intro he
        exact (List.nodup_cons.mp (by simpa [keys] using hnd)).1 (he ▸ hmem)
      have hstep : dictGet (p :: t) ((p :: t).get ⟨j + 1, hi⟩).1 =
          dictGet t (t.get ⟨j, hj⟩).1 := by
        show dictGet (p :: t) (t.get ⟨j, hj⟩).1 = dictGet t (t.get ⟨j, hj⟩).1
        unfold dictGet
        rw [List.find?_cons_of_neg _ (by simpa using hne)]
      rw [hstep]
      exact ih (List.nodup_cons.mp (by simpa [keys] using hnd)).2 j hj

lemma countP_eq_one_of_unique {α : Type} (p : α → Bool) :
    ∀ (l : List α) (j : ℕ) (hj : j < l.length),
      p (l.get ⟨j, hj⟩) = true →
      (∀ (i : ℕ) (hi : i < l.length), i ≠ j → p (l.get ⟨i, hi⟩) = false) →
      l.countP p = 1 := by
  intro l
  induction l with
  | nil => intro j hj; exact absurd hj (by simp)
  | cons a t ih =>
    intro j hj hpj hothers
    cases j with
    | zero =>
      have hzero : t.countP p = 0 := by
        apply List.countP_eq_zero.mpr
        intro x hx
        obtain ⟨⟨i, hi⟩, rfl⟩ := List.mem_iff_get.mp hx
        have := hothers (i + 1) (by simpa using hi) (by omega)
        simpa using this
      rw [List.countP_cons, hzero, if_pos (by simpa using hpj)]
    | succ k =>
      have hk : k < t.length := by simpa using hj
      have hpa : p a = false := by
        have := hothers 0 (by simp) (by omega)
        simpa using this
      rw [List.countP_cons, if_neg (by simp [hpa])]
      rw [ih k hk (by simpa using hpj) ?rest]
      case rest =>
        intro i hi hik
        have := hothers (i + 1) (by simpa using hi) (by omega)
        simpa using this

lemma countP_not_eq {α : Type} (p : α → Bool) (l : List α) :
    l.countP (fun a => !p a) = l.length - l.countP p := by
  have h := List.length_eq_countP_add_countP p l
  have he : (fun a => decide ¬(p a = true)) = (fun a => !p a) := by
    funext a
    cases hp : p a <;> simp [hp]
  rw [he] at h
  omega

lemma replicate_order_entries (r : OrderReplicator) (s : Settings)
    (master : MasterOrder)
    (hlen : r.slave_clients.length = s.slave_accounts.length) :
    (r.replicate_order s master).1 =
      build_result_dict s.slave_accounts
        ((r.slave_clients.zip s.slave_accounts).map
          (fun ca =>
            Except.ok
              (place_order_on_account ca.1 (mk_order_params master s.copy_multiplier)))) :=
  rfl

lemma replicate_order_map_form (r : OrderReplicator) (s : Settings)
    (master : MasterOrder)
    (hlen : r.slave_clients.length = s.slave_accounts.length)
    (hnd : (s.slave_accounts.map account_display_name).Nodup) :
    (r.replicate_order s master).1 =
      (r.slave_clients.zip s.slave_accounts).map
        (fun ca =>
          (account_display_name ca.2,
            place_order_on_account ca.1 (mk_order_params master s.copy_multiplier))) := by
  have hczlen : (r.slave_clients.zip s.slave_accounts).length =
      s.slave_accounts.length := by
    simp [List.length_zip, hlen]
  have htlen :
      ((r.slave_clients.zip s.slave_accounts).map
          (fun ca =>
            (Except.ok
                (place_order_on_account ca.1 (mk_order_params master s.copy_multiplier)) :
              Except Err Bool))).length =
        s.slave_accounts.length := by
    simpa using hczlen
  have hznd :
      ((s.slave_accounts.zip
            ((r.slave_clients.zip s.slave_accounts).map
              (fun ca =>
                (Except.ok
                    (place_order_on_account ca.1
                      (mk_order_params master s.copy_multiplier)) :
                  Except Err Bool)))).map
          (fun ar => account_display_name ar.1)).Nodup := by
    have hfst :
        (s.slave_accounts.zip
              ((r.slave_clients.zip s.slave_accounts).map
                (fun ca =>
                  (Except.ok
                      (place_order_on_account ca.1
                        (mk_order_params master s.copy_multiplier)) :
                    Except Err Bool)))).map Prod.fst =
          s.slave_accounts :=
      List.map_fst_zip _ _ (le_of_eq htlen.symm)
    have hcomp :
        (fun (ar : Account × Except Err Bool) => account_display_name ar.1) =
          (account_display_name ∘ Prod.fst) := rfl
    rw [hcomp, ← List.map_map, hfst]
    exact hnd
  rw [replicate_order_entries r s master hlen, build_result_dict_eq_map _ _ hznd]
  apply List.ext_getElem
  · simp [List.length_zip, hlen]
  · intro i h1 h2
    simp only [List.getElem_map, List.getElem_zip, gather_outcome]

lemma build_result_dict_keys_mem (accounts : List Account)
    (results : List (Except Err Bool)) (x : String) :
    x ∈ keys (build_result_dict accounts results) ↔
      x ∈ (accounts.zip results).map (fun ar => account_display_name ar.1) := by
  unfold build_result_dict
  have hfold :
      (accounts.zip results).foldl
          (fun d ar =>
            dictInsert d (account_display_name ar.1) (gather_outcome ar.2)) [] =
        ((accounts.zip results).map
            (fun ar => (account_display_name ar.1, gather_outcome ar.2))).foldl
          (fun d kv => dictInsert d kv.1 kv.2) [] := by
    rw [List.foldl_map]
  rw [hfold, mem_keys_foldl_dictInsert]
  simp [keys, List.map_map, Function.comp]

lemma build_result_dict_keys_nodup (accounts : List Account)
    (results : List (Except Err Bool)) :
    (keys (build_result_dict accounts results)).Nodup := by
  unfold build_result_dict
  have hfold :
      (accounts.zip results).foldl
          (fun d ar =>
            dictInsert d (account_display_name ar.1) (gather_outcome ar.2)) [] =
        ((accounts.zip results).map
            (fun ar => (account_display_name ar.1, gather_outcome ar.2))).foldl
          (fun d kv => dictInsert d kv.1 kv.2) [] := by
    rw [List.foldl_map]
  rw [hfold]
  exact nodup_keys_foldl_dictInsert _ [] (by simp [keys])

lemma replicate_order_keys_eq (r : OrderReplicator) (s : Settings)
    (master : MasterOrder)
    (hlen : r.slave_clients.length = s.slave_accounts.length)
    (hnd : (s.slave_accounts.map account_display_name).Nodup) :
    keys (r.replicate_order s master).1 =
      s.slave_accounts.map account_display_name := by
  rw [replicate_order_map_form r s master hlen hnd]
  unfold keys
  rw [List.map_map]
  have hcomp :
      (Prod.fst ∘ fun (ca : Client × Account) =>
          (account_display_name ca.2,
            place_order_on_account ca.1 (mk_order_params master s.copy_multiplier))) =
        (account_display_name ∘ Prod.snd) := rfl
  rw [hcomp, ← List.map_map]
  rw [List.map_snd_zip _ _ (le_of_eq hlen.symm)]

/-- C1: an exception raised by one slave account's replication task in
`OrderReplicator.replicate_order` is caught and recorded as `false` for
that account, never propagates (the function always returns a total result
dict), and never alters the outcome recorded for any other account: with
every client except the `j`-th succeeding and the `j`-th raising, the
result records one `false` for account `j`, `true` for every other
account, `N - 1` successes and exactly one failure. -/
theorem replicate_order_isolates_failures
    (s : Settings) (r : OrderReplicator) (master : MasterOrder)
    (hlen : r.slave_clients.length = s.slave_accounts.length)
    (hnd : (s.slave_accounts.map account_display_name).Nodup)
    (j : ℕ) (hj : j < (r.slave_clients.zip s.slave_accounts).length)
    (hfail : ∃ err,
      ((r.slave_clients.zip s.slave_accounts).get ⟨j, hj⟩).1
          (mk_order_params master s.copy_multiplier) = Except.error err)
    (hok : ∀ (i : ℕ) (hi : i < (r.slave_clients.zip s.slave_accounts).length),
      i ≠ j → ∃ res,
        ((r.slave_clients.zip s.slave_accounts).get ⟨i, hi⟩).1
            (mk_order_params master s.copy_multiplier) = Except.ok res) :
    dictGet (r.replicate_order s master).1
        (account_display_name
          (((r.slave_clients.zip s.slave_accounts).get ⟨j, hj⟩).2)) = some false
    ∧ (∀ (i : ℕ) (hi : i < (r.slave_clients.zip s.slave_accounts).length),
        i ≠ j →
          dictGet (r.replicate_order s master).1
              (account_display_name
                (((r.slave_clients.zip s.slave_accounts).get ⟨i, hi⟩).2)) =
            some true)
    ∧ (r.replicate_order s master).1.countP (fun e => !e.2) = 1
    ∧ (r.replicate_order s master).1.countP (fun e => e.2) =
        s.slave_accounts.length - 1
    ∧ (r.replicate_order s master).1.length = s.slave_accounts.length := by
  have hczlen : (r.slave_clients.zip s.slave_accounts).length =
      s.slave_accounts.length := by
    simp [List.length_zip, hlen]
  have hmap := replicate_order_map_form r s master hlen hnd
  have hlenres : (r.replicate_order s master).1.length =
      (r.slave_clients.zip s.slave_accounts).length := by
    rw [hmap, List.length_map]
  have hknd : (keys (r.replicate_order s master).1).Nodup := by
    rw [replicate_order_keys_eq r s master hlen hnd]
    exact hnd
  have hplace_fail :
      place_order_on_account
          ((r.slave_clients.zip s.slave_accounts).get ⟨j, hj⟩).1
          (mk_order_params master s.copy_multiplier) = false := by
    obtain ⟨err, herr⟩ := hfail
    unfold place_order_on_account
    rw [herr]
  have hplace_ok : ∀ (i : ℕ)
      (hi : i < (r.slave_clients.zip s.slave_accounts).length), i ≠ j →
      place_order_on_account
          ((r.slave_clients.zip s.slave_accounts).get ⟨i, hi⟩).1
          (mk_order_params master s.copy_multiplier) = true := by
    intro i hi hne
    obtain ⟨res, hres⟩ := hok i hi hne
    unfold place_order_on_account
    rw [hres]
  have hget : ∀ (i : ℕ) (hi : i < (r.slave_clients.zip s.slave_accounts).length),
      (r.replicate_order s master).1.get ⟨i, by rw [hlenres]; exact hi⟩ =
        (account_display_name
            (((r.slave_clients.zip s.slave_accounts).get ⟨i, hi⟩).2),
          place_order_on_account
            ((r.slave_clients.zip s.slave_accounts).get ⟨i, hi⟩).1
            (mk_order_params master s.copy_multiplier)) := by
    intro i hi
    have h1 : i < (r.replicate_order s master).1.length := by
      rw [hlenres]; exact hi
    have h2 := List.getElem_of_eq hmap h1
    simp only [List.get_eq_getElem]
    rw [h2, List.getElem_map]
  refine ⟨?h1, ?h2, ?h3, ?h4, ?h5⟩
  case h1 =>
    have hd := dictGet_get_of_nodup (r.replicate_order s master).1 hknd j
      (by rw [hlenres]; exact hj)
    rw [hget j hj] at hd
    rw [hplace_fail] at hd
    exact hd
  case h2 =>
    intro i hi hne
    have hd := dictGet_get_of_nodup (r.replicate_order s master).1 hknd i
      (by rw [hlenres]; exact hi)
    rw [hget i hi] at hd
    rw [hplace_ok i hi hne] at hd
    exact hd
  case h3 =>
    rw [hmap, List.countP_map]
    apply countP_eq_one_of_unique _ _ j hj
    · simp only [Function.comp]
      rw [hplace_fail]
      rfl
    · intro i hi hne
      simp only [Function.comp]
      rw [hplace_ok i hi hne]
      rfl
  case h4 =>
    have hsplit := countP_not_eq (fun (e : String × Bool) => e.2)
      (r.replicate_order s master).1
    have hone : (r.replicate_order s master).1.countP (fun e => !e.2) = 1 := by
      rw [hmap, List.countP_map]
      apply countP_eq_one_of_unique _ _ j hj
      · simp only [Function.comp]
        rw [hplace_fail]
        rfl
      · intro i hi hne
        simp only [Function.comp]
        rw [hplace_ok i hi hne]
        rfl
    have hle := List.countP_le_length (fun (e : String × Bool) => e.2)
      (l := (r.replicate_order s master).1)
    have hlen' : (r.replicate_order s master).1.length =
        s.slave_accounts.length := by rw [hlenres, hczlen]
    omega
  case h5 =>
    rw [hlenres, hczlen]

/-- Witness for C1: one working account `A` beside one failing account `B`
yields `{A: true, B: false}` — one success and one failure. -/
theorem replicate_order_isolates_failures_witness :
    dictGet (mixedReplicator.replicate_order twoSettings sampleOrder).1 "B" =
        some false
    ∧ dictGet (mixedReplicator.replicate_order twoSettings sampleOrder).1 "A" =
        some true
    ∧ (mixedReplicator.replicate_order twoSettings sampleOrder).1.countP
        (fun e => !e.2) = 1
    ∧ (mixedReplicator.replicate_order twoSettings sampleOrder).1.countP
        (fun e => e.2) = 1 := by
  have h := replicate_order_isolates_failures twoSettings mixedReplicator
    sampleOrder rfl (by decide) 1 (by decide)
    ⟨"network down", rfl⟩
    (by
      intro i hi hne
      have hi2 : i < 2 := by simpa [mixedReplicator, twoSettings, okClient,
        failClient, acctA, acctB] using hi
      interval_cases i
      · exact ⟨⟨some "ok-1"⟩, rfl⟩
      · exact absurd rfl hne)
  exact ⟨h.1, h.2.1 0 (by decide) (by decide), h.2.2.1, h.2.2.2.1⟩

/-- C2: `replicate_order` submits quantity `Q × M` to every slave account,
preserving symbol, side, order type, price, stop price and the
reduce-only flag (defaulting to `false` when absent on the signal); the
replicator state is unchanged by a call, so a repeated call with the same
signal submits exactly the same `Q × M` parameters — no accumulation. -/
theorem replicate_order_scales_and_preserves
    (s : Settings) (r : OrderReplicator) (master : MasterOrder)
    (hmul : 0 < s.copy_multiplier)
    (hlen : r.slave_clients.length = s.slave_accounts.length) :
    (r.replicate_order_submissions s master).length = s.slave_accounts.length
    ∧ (∀ p ∈ r.replicate_order_submissions s master,
        p.quantity = master.quantity * s.copy_multiplier
        ∧ p.symbol = master.symbol
        ∧ p.side = master.side
        ∧ p.order_type = master.order_type
        ∧ p.price = master.price
        ∧ p.stop_price = master.stop_price
        ∧ p.reduce_only = master.reduce_only.getD false)
    ∧ (r.replicate_order s master).2 = r
    ∧ (r.replicate_order s master).2.replicate_order_submissions s master =
        r.replicate_order_submissions s master
    ∧ (r.replicate_order s master).2.replicate_order s master =
        r.replicate_order s master := by
  refine ⟨?l1, ?l2, rfl, rfl, rfl⟩
  case l1 =>
    unfold OrderReplicator.replicate_order_submissions
    simp [List.length_zip, hlen]
  case l2 =>
    intro p hp
    unfold OrderReplicator.replicate_order_submissions at hp
    obtain ⟨ca, _, rfl⟩ := List.mem_map.mp hp
    exact ⟨rfl, rfl, rfl, rfl, rfl, rfl, rfl⟩

/-- Witness for C2: with multiplier 2 and signal quantity 1 the single
submission carries quantity 2 and the replicator state is unchanged. -/
theorem replicate_order_scales_and_preserves_witness :
    (mixedReplicator.replicate_order_submissions twoSettings sampleOrder).length = 2
    ∧ (mixedReplicator.replicate_order twoSettings sampleOrder).2 =
        mixedReplicator
    ∧ (mixedReplicator.replicate_order twoSettings
          sampleOrder).2.replicate_order twoSettings sampleOrder =
        mixedReplicator.replicate_order twoSettings sampleOrder := by
  have h := replicate_order_scales_and_preserves twoSettings mixedReplicator
    sampleOrder (by norm_num [twoSettings]) rfl
  exact ⟨h.1, h.2.2.1, h.2.2.2.2⟩

/-- Counterexample for C3: with two configured accounts that share the
display name `A`, the result dict of `replicate_order` has a single entry,
so its cardinality is 1, not the number of configured accounts (2): the
second account's entry overwrites the first. -/
theorem replicate_order_card_counterexample :
    dupSettings.slave_accounts.length = 2
    ∧ (dupReplicator.replicate_order dupSettings sampleOrder).1 = [("A", true)]
    ∧ (dupReplicator.replicate_order dupSettings sampleOrder).1.length = 1 := by
  refine ⟨rfl, ?e, ?l⟩
  case e => rfl
  case l => rfl

/-- C3 (amended): for every configured account list (duplicate or missing
`name` fields included) and every signal, `replicate_order` returns a dict
whose key set equals the set of configured display names (missing names
mapping to `"Unknown"`), with no duplicate keys, whose cardinality equals
the number of distinct display names — hence equal to the number of
configured accounts exactly when display names are pairwise distinct —
regardless of how many per-account calls raise errors. -/
theorem replicate_order_result_keys
    (s : Settings) (r : OrderReplicator) (master : MasterOrder)
    (hlen : r.slave_clients.length = s.slave_accounts.length) :
    (keys (r.replicate_order s master).1).Nodup
    ∧ (∀ k, k ∈ keys (r.replicate_order s master).1 ↔
        k ∈ s.slave_accounts.map account_display_name)
    ∧ (keys (r.replicate_order s master).1).length =
        (s.slave_accounts.map account_display_name).dedup.length
    ∧ ((s.slave_accounts.map account_display_name).Nodup →
        (r.replicate_order s master).1.length = s.slave_accounts.length) := by
  have htlen :
      ((r.slave_clients.zip s.slave_accounts).map
          (fun ca =>
            (Except.ok
                (place_order_on_account ca.1 (mk_order_params master s.copy_multiplier)) :
              Except Err Bool))).length =
        s.slave_accounts.length := by
    simp [List.length_zip, hlen]
  have hmem : ∀ k, k ∈ keys (r.replicate_order s master).1 ↔
      k ∈ s.slave_accounts.map account_display_name := by
    intro k
    rw [replicate_order_entries r s master hlen, build_result_dict_keys_mem]
    have hfst :
        (s.slave_accounts.zip
              ((r.slave_clients.zip s.slave_accounts).map
                (fun ca =>
                  (Except.ok
                      (place_order_on_account ca.1
                        (mk_order_params master s.copy_multiplier)) :
                    Except Err Bool)))).map Prod.fst =
          s.slave_accounts :=
      List.map_fst_zip _ _ (le_of_eq htlen.symm)
    have hcomp :
        (fun (ar : Account × Except Err Bool) => account_display_name ar.1) =
          (account_display_name ∘ Prod.fst) := rfl
    rw [hcomp, ← List.map_map, hfst]
  have hknd : (keys (r.replicate_order s master).1).Nodup := by
    rw [replicate_order_entries r s master hlen]
    exact build_result_dict_keys_nodup _ _
  refine ⟨hknd, hmem, ?card, ?full⟩
  case card =>
    have hset : (keys (r.replicate_order s master).1).toFinset =
        (s.slave_accounts.map account_display_name).toFinset := by
      apply Finset.ext
      intro k
      rw [List.mem_toFinset, List.mem_toFinset]
      exact hmem k
    calc (keys (r.replicate_order s master).1).length
        = (keys (r.replicate_order s master).1).toFinset.card :=
          (List.toFinset_card_of_nodup hknd).symm
      _ = (s.slave_accounts.map account_display_name).toFinset.card := by
          rw [hset]
      _ = (s.slave_accounts.map account_display_name).dedup.length :=
          List.card_toFinset _
  case full =>
    intro hnd
    rw [replicate_order_map_form r s master hlen hnd]
    simp [List.length_zip, hlen]

/-- Witness for C3 (amended): with distinct names `A`, `B` the result has
two nodup keys `A` and `B`, and cardinality 2 = number of accounts. -/
theorem replicate_order_result_keys_witness :
    (keys (mixedReplicator.replicate_order twoSettings sampleOrder).1).Nodup
    ∧ ("A" ∈ keys (mixedReplicator.replicate_order twoSettings sampleOrder).1)
    ∧ (mixedReplicator.replicate_order twoSettings sampleOrder).1.length = 2 := by
  have h := replicate_order_result_keys twoSettings mixedReplicator
    sampleOrder rfl
  exact ⟨h.1, (h.2.1 "A").mpr (by decide), h.2.2.2 (by decide)⟩

/-- C4 (code bug): `replicate_cancel` and `replicate_modify` are TODO
stubs whose bodies are `pass`, so they return `None` rather than a
`ReplicationResult` with one success flag per configured account — in
contrast with the place operation, which on the same configuration returns
one entry per account. -/
theorem replicate_cancel_modify_stub :
    mixedReplicator.replicate_cancel twoSettings sampleOrder = none
    ∧ mixedReplicator.replicate_modify twoSettings sampleOrder [] = none
    ∧ (mixedReplicator.replicate_order twoSettings sampleOrder).1 =
        [("A", true), ("B", false)] := by
  refine ⟨rfl, rfl, ?p⟩
  case p => rfl

lemma dictInsert_entry_pred {α : Type} (P : String × α → Prop)
    (d : List (String × α)) (k : String) (v : α)
    (hd : ∀ q ∈ d, P q) (hkv : P (k, v)) :
    ∀ q ∈ dictInsert d k v, P q := by
  unfold dictInsert
  split
  · intro q hq
    obtain ⟨p, hp, rfl⟩ := List.mem_map.mp hq
    split
    · next he => exact he ▸ hkv
    · exact hd p hp
  · intro q hq
    rcases List.mem_append.mp hq with h | h
    · exact hd q h
    · rw [List.mem_singleton.mp h]
      exact hkv

lemma foldl_dictInsert_entry_pred {α : Type} (P : String × α → Prop) :
    ∀ (l : List (String × α)) (d : List (String × α)),
      (∀ q ∈ d, P q) → (∀ q ∈ l, P q) →
      ∀ q ∈ l.foldl (fun d kv => dictInsert d kv.1 kv.2) d, P q := by
  intro l
  induction l with
  | nil => intro d hd _; exact hd
  | cons p t ih =>
    intro d hd hl
    simp only [List.foldl_cons]
    apply ih
    · exact dictInsert_entry_pred P d p.1 p.2 hd
        (by
          have : P p := hl p (by simp)
          simpa using this)
    · intro q hq
      exact hl q (by simp [hq])

lemma snapshot_of_wf (orders : List MasterOrder) :
    WfSnapshot (snapshot_of orders) := by
  constructor
  · unfold snapshot_of
    have hfold :
        orders.foldl (fun d o => dictInsert d o.order_id o) [] =
          (orders.map (fun o => (o.order_id, o))).foldl
            (fun d kv => dictInsert d kv.1 kv.2) [] := by
      rw [List.foldl_map]
    rw [hfold]
    exact nodup_keys_foldl_dictInsert _ [] (by simp [keys])
  · unfold snapshot_of
    have hfold :
        orders.foldl (fun d o => dictInsert d o.order_id o) [] =
          (orders.map (fun o => (o.order_id, o))).foldl
            (fun d kv => dictInsert d kv.1 kv.2) [] := by
      rw [List.foldl_map]
    rw [hfold]
    apply foldl_dictInsert_entry_pred
      (fun (q : String × MasterOrder) => q.1 = q.2.order_id)
    · intro q hq
      exact absurd hq (by simp)
    · intro q hq
      obtain ⟨o, _, rfl⟩ := List.mem_map.mp hq
      rfl

lemma dictGet_eq_none_iff {α : Type} (d : List (String × α)) (k : String) :
    dictGet d k = none ↔ k ∉ keys d := by
  unfold dictGet
  cases hf : d.find? (fun p => p.1 = k) with
  | none =>
    simp only [iff_true_intro rfl, true_iff]
    have hall := List.find?_eq_none.mp hf
    intro hk
    obtain ⟨p, hp, hpk⟩ := List.mem_map.mp hk
    exact absurd (by simpa using (hpk : p.1 = k)) (by simpa using hall p hp)
  | some p =>
    have hmem := List.mem_of_find?_eq_some hf
    have hpk : p.1 = k := by simpa using List.find?_some hf
    constructor
    · intro h; exact absurd h (by simp)
    · intro hk
      exact absurd (List.mem_map.mpr ⟨p, hmem, hpk⟩) hk

lemma dictGet_isSome_iff {α : Type} (d : List (String × α)) (k : String) :
    (dictGet d k).isSome ↔ k ∈ keys d := by
  constructor
  · intro h
    by_contra hk
    rw [(dictGet_eq_none_iff d k).mpr hk] at h
    simp at h
  · intro hk
    cases hd : dictGet d k with
    | some v => simp
    | none => exact absurd ((dictGet_eq_none_iff d k).mp hd) (not_not_intro hk)

lemma dictGet_of_mem_nodup {α : Type} (d : List (String × α))
    (hnd : (keys d).Nodup) {p : String × α} (hp : p ∈ d) :
    dictGet d p.1 = some p.2 := by
  obtain ⟨⟨i, hi⟩, rfl⟩ := List.mem_iff_get.mp hp
  exact dictGet_get_of_nodup d hnd i hi

lemma map_fst_filter {α : Type} (q : String → Bool) :
    ∀ l : List (String × α),
      (l.filter (fun p => q p.1)).map Prod.fst = (l.map Prod.fst).filter q := by
  intro l
  induction l with
  | nil => rfl
  | cons p t ih => cases hq : q p.1 <;> simp [List.filter_cons, hq, ih]

lemma filterMap_guard_fst {α : Type} (q : String → Bool) :
    ∀ l : List (String × α),
      l.filterMap (fun p => if q p.1 then some p.1 else none) =
        (l.map Prod.fst).filter q := by
  intro l
  induction l with
  | nil => rfl
  | cons p t ih => cases hq : q p.1 <;> simp [List.filter_cons, hq, ih]

lemma placed_events_ids (last current : Snapshot)
    (hw : ∀ p ∈ current, p.1 = p.2.order_id) :
    (placed_events last current).map ChangeEvent.event_id =
      (keys current).filter (fun k => k ∉ keys last) := by
  unfold placed_events
  rw [List.map_map]
  have h1 : (current.filter (fun p => p.1 ∉ keys last)).map
      (ChangeEvent.event_id ∘ fun p => ChangeEvent.placed p.2) =
      (current.filter (fun p => p.1 ∉ keys last)).map Prod.fst := by
    apply List.map_congr_left
    intro p hp
    exact (hw p (List.mem_filter.mp hp).1).symm
  rw [h1]
  exact map_fst_filter (fun k => decide (k ∉ keys last)) current

lemma cancelled_events_ids (last current : Snapshot)
    (hw : ∀ p ∈ last, p.1 = p.2.order_id) :
    (cancelled_events last current).map ChangeEvent.event_id =
      (keys last).filter (fun k => k ∉ keys current) := by
  unfold cancelled_events
  rw [List.map_map]
  have h1 : (last.filter (fun p => p.1 ∉ keys current)).map
      (ChangeEvent.event_id ∘ fun p => ChangeEvent.cancelled p.2) =
      (last.filter (fun p => p.1 ∉ keys current)).map Prod.fst := by
    apply List.map_congr_left
    intro p hp
    exact (hw p (List.mem_filter.mp hp).1).symm
  rw [h1]
  exact map_fst_filter (fun k => decide (k ∉ keys current)) last

lemma modified_events_ids (last current : Snapshot)
    (hwc : WfSnapshot current) :
    (modified_events last current).map ChangeEvent.event_id =
      (keys current).filter
        (fun k => k ∈ keys last ∧ dictGet last k ≠ dictGet current k) := by
  unfold modified_events
  rw [List.map_filterMap]
  have hcong : ∀ p ∈ current,
      Option.map ChangeEvent.event_id
          (match dictGet last p.1 with
           | none => none
           | some old =>
             if p.2 ≠ old then some (ChangeEvent.modified p.2 old) else none) =
        (if (decide (p.1 ∈ keys last ∧ dictGet last p.1 ≠ dictGet current p.1))
          then some p.1 else none) := by
    intro p hp
    have hcur : dictGet current p.1 = some p.2 :=
      dictGet_of_mem_nodup current hwc.1 hp
    have hid : p.1 = p.2.order_id := hwc.2 p hp
    cases hlast : dictGet last p.1 with
    | none =>
      have hnot : p.1 ∉ keys last := (dictGet_eq_none_iff last p.1).mp hlast
      simp [hnot]
    | some old =>
      have hmem : p.1 ∈ keys last := by
        rw [← dictGet_isSome_iff, hlast]
        rfl
      by_cases hpe : p.2 = old
      · subst hpe
        simp [hmem, hlast, hcur]
      · have hne3 : old ≠ p.2 := fun h => hpe h.symm
        simp [hpe, hne3, hmem, hcur, ChangeEvent.event_id, ← hid]
  rw [List.filterMap_congr hcong]
  exact filterMap_guard_fst
    (fun k => decide (k ∈ keys last ∧ dictGet last k ≠ dictGet current k)) current

lemma mem_modified_events_iff (last current : Snapshot) (ev : ChangeEvent) :
    ev ∈ modified_events last current ↔
      ∃ p ∈ current, ∃ old, dictGet last p.1 = some old ∧ p.2 ≠ old
        ∧ ev = ChangeEvent.modified p.2 old := by
  unfold modified_events
  rw [List.mem_filterMap]
  constructor
  · rintro ⟨a, ha, hsome⟩
    split at hsome
    · exact absurd hsome (by simp)
    · next old heq =>
      split at hsome
      · next hne =>
        exact ⟨a, ha, old, heq, hne, (Option.some.inj hsome).symm⟩
      · exact absurd hsome (by simp)
  · rintro ⟨p, hp, old, hget, hne, rfl⟩
    refine ⟨p, hp, ?_⟩
    rw [hget]
    simp [hne]

lemma placed_payload (last current : Snapshot) (hwc : WfSnapshot current) :
    ∀ o, ChangeEvent.placed o ∈ cycle_events last current →
      dictGet current o.order_id = some o ∧ o.order_id ∉ keys last := by
  intro o ho
  unfold cycle_events at ho
  rcases List.mem_append.mp ho with h | h
  · rcases List.mem_append.mp h with h1 | h2
    · unfold placed_events at h1
      obtain ⟨p, hp, heq⟩ := List.mem_map.mp h1
      have hpo : p.2 = o := by cases heq; rfl
      obtain ⟨hpc, hfreshb⟩ := List.mem_filter.mp hp
      have hfresh : p.1 ∉ keys last := of_decide_eq_true hfreshb
      have hid : p.1 = p.2.order_id := hwc.2 p hpc
      have hget : dictGet current p.1 = some p.2 :=
        dictGet_of_mem_nodup current hwc.1 hpc
      subst hpo
      rw [← hid]
      exact ⟨hget, hfresh⟩
    · obtain ⟨p, _, _, _, _, habs⟩ := (mem_modified_events_iff last current _).mp h2
      exact absurd habs (by simp)
  · unfold cancelled_events at h
    obtain ⟨p, _, heq⟩ := List.mem_map.mp h
    exact absurd heq (by simp)

lemma modified_payload (last current : Snapshot) (hwc : WfSnapshot current) :
    ∀ n o, ChangeEvent.modified n o ∈ cycle_events last current →
      dictGet current n.order_id = some n ∧ dictGet last n.order_id = some o
        ∧ n ≠ o := by
  intro n o ho
  unfold cycle_events at ho
  rcases List.mem_append.mp ho with h | h
  · rcases List.mem_append.mp h with h1 | h2
    · unfold placed_events at h1
      obtain ⟨p, _, heq⟩ := List.mem_map.mp h1
      exact absurd heq (by simp)
    · obtain ⟨a, hac, old, hget, hne, hev⟩ :=
        (mem_modified_events_iff last current _).mp h2
      have han : a.2 = n := by cases hev; rfl
      have hoo : old = o := by cases hev; rfl
      have hid : a.1 = a.2.order_id := hwc.2 a hac
      have hcur : dictGet current a.1 = some a.2 :=
        dictGet_of_mem_nodup current hwc.1 hac
      subst han
      subst hoo
      rw [← hid]
      exact ⟨hcur, hget, hne⟩
  · unfold cancelled_events at h
    obtain ⟨p, _, heq⟩ := List.mem_map.mp h
    exact absurd heq (by simp)

lemma cancelled_payload (last current : Snapshot) (hwl : WfSnapshot last) :
    ∀ o, ChangeEvent.cancelled o ∈ cycle_events last current →
      dictGet last o.order_id = some o ∧ o.order_id ∉ keys current := by
  intro o ho
  unfold cycle_events at ho
  rcases List.mem_append.mp ho with h | h
  · rcases List.mem_append.mp h with h1 | h2
    · unfold placed_events at h1
      obtain ⟨p, _, heq⟩ := List.mem_map.mp h1
      exact absurd heq (by simp)
    · obtain ⟨p, _, _, _, _, habs⟩ := (mem_modified_events_iff last current _).mp h2
      exact absurd habs (by simp)
  · unfold cancelled_events at h
    obtain ⟨p, hp, heq⟩ := List.mem_map.mp h
    have hpo : p.2 = o := by cases heq; rfl
    obtain ⟨hpl, hfreshb⟩ := List.mem_filter.mp hp
    have hfresh : p.1 ∉ keys current := of_decide_eq_true hfreshb
    have hid : p.1 = p.2.order_id := hwl.2 p hpl
    have hget : dictGet last p.1 = some p.2 :=
      dictGet_of_mem_nodup last hwl.1 hpl
    subst hpo
    rw [← hid]
    exact ⟨hget, hfresh⟩

lemma diff_classification_unique (last current : Snapshot) :
    ∀ k, k ∈ keys last ∨ k ∈ keys current →
      ([decide (k ∈ keys current ∧ k ∉ keys last),
        decide (k ∈ keys last ∧ k ∈ keys current ∧
          dictGet last k ≠ dictGet current k),
        decide (k ∈ keys last ∧ k ∉ keys current),
        decide (k ∈ keys last ∧ k ∈ keys current ∧
          dictGet last k = dictGet current k)].countP id) = 1 := by
  intro k hk
  by_cases h1 : k ∈ keys last <;> by_cases h2 : k ∈ keys current
  · by_cases h3 : dictGet last k = dictGet current k <;>
      simp [List.countP_cons, h1, h2, h3]
  · simp [List.countP_cons, h1, h2]
  · simp [List.countP_cons, h1, h2]
  · rcases hk with h | h
    · exact absurd h h1
    · exact absurd h h2

lemma cycle_events_ids_mem (last current : Snapshot)
    (hwl : WfSnapshot last) (hwc : WfSnapshot current) :
    ∀ k, k ∈ (cycle_events last current).map ChangeEvent.event_id ↔
      ((k ∈ keys current ∧ k ∉ keys last)
        ∨ (k ∈ keys last ∧ k ∉ keys current)
        ∨ (k ∈ keys last ∧ k ∈ keys current ∧
            dictGet last k ≠ dictGet current k)) := by
  intro k
  unfold cycle_events
  rw [List.map_append, List.map_append]
  rw [placed_events_ids last current hwc.2,
    modified_events_ids last current hwc,
    cancelled_events_ids last current hwl.2]
  simp only [List.mem_append, List.mem_filter, decide_eq_true_eq]
  tauto

/-- C5: one poll-cycle diff classifies every order id occurring in either
snapshot into exactly one of new / changed / removed / unchanged; the
placed, modified and cancelled event-id lists are exactly the new,
changed and removed key groups (each id at most once, so each triggers
exactly one callback); a modified event carries `(new order, old order)`
as read from the two snapshots, a placed event the new order, a
cancelled event the old order; unchanged ids trigger nothing; and the
set of emitted ids is the symmetric difference of the key sets plus the
changed part of the intersection. -/
theorem monitor_diff_classification (last current : Snapshot)
    (hwl : WfSnapshot last) (hwc : WfSnapshot current) :
    ((placed_events last current).map ChangeEvent.event_id =
        (keys current).filter (fun k => k ∉ keys last))
    ∧ ((modified_events last current).map ChangeEvent.event_id =
        (keys current).filter
          (fun k => k ∈ keys last ∧ dictGet last k ≠ dictGet current k))
    ∧ ((cancelled_events last current).map ChangeEvent.event_id =
        (keys last).filter (fun k => k ∉ keys current))
    ∧ ((placed_events last current).map ChangeEvent.event_id).Nodup
    ∧ ((modified_events last current).map ChangeEvent.event_id).Nodup
    ∧ ((cancelled_events last current).map ChangeEvent.event_id).Nodup
    ∧ (∀ o, ChangeEvent.placed o ∈ cycle_events last current →
        dictGet current o.order_id = some o ∧ o.order_id ∉ keys last)
    ∧ (∀ n o, ChangeEvent.modified n o ∈ cycle_events last current →
        dictGet current n.order_id = some n
          ∧ dictGet last n.order_id = some o ∧ n ≠ o)
    ∧ (∀ o, ChangeEvent.cancelled o ∈ cycle_events last current →
        dictGet last o.order_id = some o ∧ o.order_id ∉ keys current)
    ∧ (∀ k, k ∈ keys last ∨ k ∈ keys current →
        ([decide (k ∈ keys current ∧ k ∉ keys last),
          decide (k ∈ keys last ∧ k ∈ keys current ∧
            dictGet last k ≠ dictGet current k),
          decide (k ∈ keys last ∧ k ∉ keys current),
          decide (k ∈ keys last ∧ k ∈ keys current ∧
            dictGet last k = dictGet current k)].countP id) = 1)
    ∧ (∀ k, k ∈ (cycle_events last current).map ChangeEvent.event_id ↔
        ((k ∈ keys current ∧ k ∉ keys last)
          ∨ (k ∈ keys last ∧ k ∉ keys current)
          ∨ (k ∈ keys last ∧ k ∈ keys current ∧
              dictGet last k ≠ dictGet current k))) := by
  refine ⟨placed_events_ids last current hwc.2,
    modified_events_ids last current hwc,
    cancelled_events_ids last current hwl.2, ?n1, ?n2, ?n3,
    placed_payload last current hwc,
    modified_payload last current hwc,
    cancelled_payload last current hwl,
    diff_classification_unique last current,
    cycle_events_ids_mem last current hwl hwc⟩
  case n1 =>
    rw [placed_events_ids last current hwc.2]
    exact List.Nodup.filter _ hwc.1
  case n2 =>
    rw [modified_events_ids last current hwc]
    exact List.Nodup.filter _ hwc.1
  case n3 =>
    rw [cancelled_events_ids last current hwl.2]
    exact List.Nodup.filter _ hwl.1

/-- Witness for C5 at concrete snapshots: `o2` is the sole placed id, the
modified payload for `o1` is `(new, old)`, and `o1` is in the emitted
id set through the changed-intersection branch. -/
theorem monitor_diff_classification_witness :
    ((placed_events wLast wCurrent).map ChangeEvent.event_id =
        (keys wCurrent).filter (fun k => k ∉ keys wLast))
    ∧ ((placed_events wLast wCurrent).map ChangeEvent.event_id = ["o2"])
    ∧ (dictGet wCurrent "o1" = some worder1b
        ∧ dictGet wLast "o1" = some worder1 ∧ worder1b ≠ worder1)
    ∧ ("o1" ∈ (cycle_events wLast wCurrent).map ChangeEvent.event_id) := by
  have h := monitor_diff_classification wLast wCurrent
    (snapshot_of_wf [worder1]) (snapshot_of_wf [worder1b, worder2])
  obtain ⟨h1, h2, h3, h4, h5, h6, h7, h8, h9, h10, h11⟩ := h
  refine ⟨h1, by decide, ?pay, ?un⟩
  case pay =>
    have hmem : ChangeEvent.modified worder1b worder1 ∈
        cycle_events wLast wCurrent := by decide
    have hp := h8 worder1b worder1 hmem
    exact hp
  case un =>
    exact (h11 "o1").mpr (Or.inr (Or.inr ⟨by decide, by decide, by decide⟩))

/-- C7: an exception from the fetch or any handler is caught — the cycle
returns normally with the snapshot exactly equal to its previous value
and the running flag unchanged, and the loop goes on to the remaining
polls; a cycle that completes without error replaces the snapshot
wholesale with the dict built from the fetched order list. -/
theorem monitor_cycle_error_isolation
    (fetch : Except Err (List MasterOrder)) (handler : Handler)
    (st : MonitorState) :
    (∀ e, cycle_attempt fetch handler st.last_orders = Except.error e →
      monitor_cycle fetch handler st = st)
    ∧ (∀ current,
        cycle_attempt fetch handler st.last_orders = Except.ok current →
          monitor_cycle fetch handler st = { st with last_orders := current }
          ∧ ∃ orders, fetch = Except.ok orders ∧ current = snapshot_of orders)
    ∧ (monitor_cycle fetch handler st).running = st.running
    ∧ (∀ (c : Except Err (List MasterOrder) × Handler)
        (rest : List (Except Err (List MasterOrder) × Handler)),
        st.running = true →
          monitor_loop st (c :: rest) =
            monitor_loop (monitor_cycle c.1 c.2 st) rest) := by
  refine ⟨?err, ?ok, ?run, ?loop⟩
  case err =>
    intro e he
    unfold monitor_cycle
    rw [he]
  case ok =>
    intro current hc
    constructor
    · unfold monitor_cycle
      rw [hc]
    · cases fetch with
      | error e => exact absurd hc (by simp [cycle_attempt])
      | ok orders =>
        refine ⟨orders, rfl, ?_⟩
        have hc2 :
            (match run_handlers handler
                (cycle_events st.last_orders (snapshot_of orders)) with
              | .ok _ => Except.ok (snapshot_of orders)
              | .error e => (Except.error e : Except Err Snapshot)) =
              Except.ok current := hc
        cases hr : run_handlers handler
            (cycle_events st.last_orders (snapshot_of orders)) <;>
          rw [hr] at hc2
        · exact absurd hc2 (by simp)
        · exact (Except.ok.inj hc2).symm
  case run =>
    unfold monitor_cycle
    cases cycle_attempt fetch handler st.last_orders <;> rfl
  case loop =>
    intro c rest hrun
    show (if st.running = true
        then monitor_loop (monitor_cycle c.1 c.2 st) rest else st) =
      monitor_loop (monitor_cycle c.1 c.2 st) rest
    rw [if_pos hrun]

/-- Witness for C7: a failed fetch leaves the snapshot and the running
flag untouched and the loop proceeds; a successful cycle stores the new
snapshot wholesale. -/
theorem monitor_cycle_error_isolation_witness :
    monitor_cycle (Except.error "api down") wHandler wState = wState
    ∧ (monitor_cycle wFetchOk wHandler wState).last_orders =
        snapshot_of [worder2]
    ∧ monitor_loop wState [(Except.error "api down", wHandler)] = wState := by
  have hbad := monitor_cycle_error_isolation (Except.error "api down")
    wHandler wState
  have hgood := monitor_cycle_error_isolation wFetchOk wHandler wState
  refine ⟨hbad.1 "api down" rfl, ?ok, ?loop⟩
  case ok =>
    have hc := (hgood.2.1 (snapshot_of [worder2]) rfl).1
    rw [hc]
  case loop =>
    rw [hbad.2.2.2 (Except.error "api down", wHandler) [] rfl]
    rw [hbad.1 "api down" rfl]
    rfl

/-- C8: within one poll cycle events are emitted as all placed, then all
modified, then all cancelled; threading any handler state through the
cycle equals running it through the three groups in that order (each
invocation completing before the next begins), the invocation trace is
exactly the ordered event list, and with fallible handlers the groups are
awaited in the same order, a raised exception short-circuiting the rest
of the cycle before the next poll. -/
theorem monitor_cycle_event_order {σ : Type} (last current : Snapshot)
    (handler : ChangeEvent → σ → σ) (s : σ) :
    cycle_events last current =
        placed_events last current ++ modified_events last current ++
          cancelled_events last current
    ∧ run_handlers_state handler (cycle_events last current) s =
        run_handlers_state handler (cancelled_events last current)
          (run_handlers_state handler (modified_events last current)
            (run_handlers_state handler (placed_events last current) s))
    ∧ run_handlers_state (fun e t => t ++ [e]) (cycle_events last current)
          ([] : List ChangeEvent) =
        cycle_events last current
    ∧ (∀ hh : Handler, run_handlers hh (cycle_events last current) =
        match run_handlers hh (placed_events last current) with
        | .ok _ =>
          match run_handlers hh (modified_events last current) with
          | .ok _ => run_handlers hh (cancelled_events last current)
          | .error e => Except.error e
        | .error e => Except.error e) := by
  have happend : ∀ (hh : Handler) (l1 l2 : List ChangeEvent),
      run_handlers hh (l1 ++ l2) =
        match run_handlers hh l1 with
        | .ok _ => run_handlers hh l2
        | .error e => Except.error e := by
    intro hh l1
    induction l1 with
    | nil => intro l2; rfl
    | cons e r ih =>
      intro l2
      have hcons : run_handlers hh (e :: r) =
          match hh e with
          | .ok _ => run_handlers hh r
          | .error err => Except.error err := rfl
      have hcons2 : run_handlers hh (e :: (r ++ l2)) =
          match hh e with
          | .ok _ => run_handlers hh (r ++ l2)
          | .error err => Except.error err := rfl
      show run_handlers hh (e :: (r ++ l2)) = _
      rw [hcons, hcons2]
      cases hh e with
      | ok u => exact ih l2
      | error err => rfl
  have htrace : ∀ (l t : List ChangeEvent),
      run_handlers_state (fun e t => t ++ [e]) l t = t ++ l := by
    intro l
    induction l with
    | nil => intro t; simp [run_handlers_state]
    | cons e r ih =>
      intro t
      show run_handlers_state (fun e t => t ++ [e]) r (t ++ [e]) = t ++ e :: r
      rw [ih (t ++ [e])]
      simp
  refine ⟨rfl, ?fold, ?tr, ?exc⟩
  case fold =>
    unfold run_handlers_state cycle_events
    rw [List.foldl_append, List.foldl_append]
  case tr =>
    have := htrace (cycle_events last current) []
    simpa using this
  case exc =>
    intro hh
    unfold cycle_events
    rw [happend hh _ (cancelled_events last current)]
    rw [happend hh (placed_events last current) (modified_events last current)]
    cases run_handlers hh (placed_events last current) with
    | ok u => rfl
    | error e => rfl

/-- C6: the filtered strategy applies the notional-floor, allow-list and
deny-list checks in order and rejects at the first failing check: a
signal with notional below the floor is always rejected (whatever the
symbol lists say), a signal whose symbol is absent from a non-empty
allow-list is always rejected, a signal whose symbol is in the deny-list
is always rejected even if also allow-listed; and a present, non-empty
signal passing all three checks is not rejected. -/
theorem filtered_strategy_checks (st : FilteredCopyStrategy)
    (md : MarketData) (sg : SigDict) (hs : md.signal = some sg) :
    (sg.quantity.getD 0 * sg.price.getD 0 < st.min_trade_size →
      st.analyze md = none)
    ∧ (st.allowed_symbols ≠ [] → optMem sg.symbol st.allowed_symbols = false →
      st.analyze md = none)
    ∧ (optMem sg.symbol st.exclude_symbols = true → st.analyze md = none)
    ∧ (sg.truthy = true → filter_checks_pass st sg = true →
        (st.analyze md).isSome = true) := by
  refine ⟨?floor, ?allow, ?deny, ?pass⟩
  case floor =>
    intro hlt
    simp [FilteredCopyStrategy.analyze, hs, hlt]
  case allow =>
    intro hne hmem
    have hemp : st.allowed_symbols.isEmpty = false := by
      cases hl : st.allowed_symbols with
      | nil => exact absurd hl hne
      | cons a t => rfl
    simp [FilteredCopyStrategy.analyze, hs, hemp, hmem]
  case deny =>
    intro hmem
    simp [FilteredCopyStrategy.analyze, hs, hmem]
  case pass =>
    intro htr hpass
    have hsplit : notional_check st sg = true ∧ allowlist_check st sg = true
        ∧ denylist_check st sg = true := by
      have hp := hpass
      unfold filter_checks_pass at hp
      simpa [and_assoc] using hp
    obtain ⟨h1, h2, h3⟩ := hsplit
    have hlt : ¬(sg.quantity.getD 0 * sg.price.getD 0 < st.min_trade_size) := by
      unfold notional_check at h1
      simpa using h1
    have hden : optMem sg.symbol st.exclude_symbols = false := by
      unfold denylist_check at h3
      simpa using h3
    have h2or : st.allowed_symbols.isEmpty = true
        ∨ optMem sg.symbol st.allowed_symbols = true := by
      unfold allowlist_check at h2
      simpa using h2
    rcases h2or with hemp | hmem
    · simp [FilteredCopyStrategy.analyze, hs, htr, hlt, hemp, hden]
    · simp [FilteredCopyStrategy.analyze, hs, htr, hlt, hmem, hden]

/-- Witness for C6: a below-floor signal is rejected, a deny-listed (and
allow-listed) symbol is rejected, and an accepted signal passes. -/
theorem filtered_strategy_checks_witness :
    FilteredCopyStrategy.analyze ⟨7, 100, [], []⟩ ⟨some denySig, none⟩ = none
    ∧ denyStrategy.analyze ⟨some denySig, none⟩ = none
    ∧ (noFilterStrategy.analyze ⟨some denySig, none⟩).isSome = true := by
  have h1 := filtered_strategy_checks ⟨7, 100, [], []⟩ ⟨some denySig, none⟩
    denySig rfl
  have h2 := filtered_strategy_checks denyStrategy ⟨some denySig, none⟩
    denySig rfl
  have h3 := filtered_strategy_checks noFilterStrategy ⟨some denySig, none⟩
    denySig rfl
  refine ⟨h1.1 (by norm_num [denySig]), h2.2.2.1 (by decide), ?ok⟩
  case ok =>
    apply h3.2.2.2 (by decide)
    unfold filter_checks_pass notional_check allowlist_check denylist_check
    norm_num [denySig, noFilterStrategy, optMem]

/-- Counterexample for C10 as stated: for the input carrying the empty
signal dict and a zero floor, all three filter checks pass (notional
0 ≥ 0, no allow-list, nothing deny-listed) yet `analyze` rejects — the
truthiness guard `if not signal` is an extra gate the claim's
"accepts iff the three checks pass" does not admit. -/
theorem filtered_truthiness_counterexample :
    filter_checks_pass noFilterStrategy emptySig = true
    ∧ noFilterStrategy.analyze emptySigMd = none := by
  constructor
  · unfold filter_checks_pass notional_check allowlist_check denylist_check
    norm_num [emptySig, noFilterStrategy, optMem]
  · rfl

/-- C10 (amended): for every input whose signal dict is present and
non-empty, the filtered strategy accepts iff the three filter checks pass
over defaulted field values (quantity and price default to 0, so a signal
lacking a price is rejected whenever the floor is positive), and no other
validation is applied: when the checks pass the signal is returned as a
pass-through replication signal even if its quantity is non-positive, its
side missing or its side outside BUY/SELL/CLOSE — signals
`SimpleCopyStrategy` would reject. An empty or missing signal dict is
rejected up front by the truthiness guard. -/
theorem filtered_strategy_no_extra_validation (st : FilteredCopyStrategy)
    (md : MarketData) (sg : SigDict) (hs : md.signal = some sg)
    (htr : sg.truthy = true) :
    ((st.analyze md).isSome = true ↔ filter_checks_pass st sg = true)
    ∧ (filter_checks_pass st sg = true →
        st.analyze md = some (filtered_result st md sg))
    ∧ (sg.price = none → 0 < st.min_trade_size → st.analyze md = none)
    ∧ (∀ sc : SimpleCopyStrategy, SimpleCopyStrategy.validate_signal sg = false →
        sc.analyze md = none) := by
  have hana : st.analyze md =
      (if !sg.truthy then none
      else if sg.quantity.getD 0 * sg.price.getD 0 < st.min_trade_size then none
      else if !st.allowed_symbols.isEmpty && !optMem sg.symbol st.allowed_symbols
        then none
      else if optMem sg.symbol st.exclude_symbols then none
      else some (filtered_result st md sg)) := by
    unfold FilteredCopyStrategy.analyze
    rw [hs]
  refine ⟨?iff, ?acc, ?nop, ?simp0⟩
  case acc =>
    intro hpass
    have hsplit : notional_check st sg = true ∧ allowlist_check st sg = true
        ∧ denylist_check st sg = true := by
      have hp := hpass
      unfold filter_checks_pass at hp
      simpa [and_assoc] using hp
    obtain ⟨h1, h2, h3⟩ := hsplit
    have hlt : ¬(sg.quantity.getD 0 * sg.price.getD 0 < st.min_trade_size) := by
      unfold notional_check at h1
      simpa using h1
    have hden : optMem sg.symbol st.exclude_symbols = false := by
      unfold denylist_check at h3
      simpa using h3
    have h2or : st.allowed_symbols.isEmpty = true
        ∨ optMem sg.symbol st.allowed_symbols = true := by
      unfold allowlist_check at h2
      simpa using h2
    rw [hana]
    rcases h2or with hemp | hmem
    · simp [htr, hlt, hemp, hden]
    · simp [htr, hlt, hmem, hden]
  case iff =>
    constructor
    · intro hsome
      by_contra hfail
      have hfail' : filter_checks_pass st sg = false :=
        Bool.eq_false_iff.mpr hfail
      have hnone : st.analyze md = none := by
        rw [hana]
        unfold filter_checks_pass notional_check allowlist_check
          denylist_check at hfail'
        by_cases hlt : sg.quantity.getD 0 * sg.price.getD 0 < st.min_trade_size
        · simp [hlt]
        · by_cases hden : optMem sg.symbol st.exclude_symbols
          · simp [hden]
          · have hal : (!st.allowed_symbols.isEmpty
                && !optMem sg.symbol st.allowed_symbols) = true := by
              revert hfail'
              cases hemp : st.allowed_symbols.isEmpty <;>
                cases hmem : optMem sg.symbol st.allowed_symbols <;>
                  simp [hlt, hden, hemp, hmem]
            simp [htr, hlt, hden, hal]
      rw [hnone] at hsome
      exact absurd hsome (by simp)
    · intro hpass
      have hacc : st.analyze md = some (filtered_result st md sg) := by
        have hsplit : notional_check st sg = true ∧ allowlist_check st sg = true
            ∧ denylist_check st sg = true := by
          have hp := hpass
          unfold filter_checks_pass at hp
          simpa [and_assoc] using hp
        obtain ⟨h1, h2, h3⟩ := hsplit
        have hlt : ¬(sg.quantity.getD 0 * sg.price.getD 0 < st.min_trade_size) := by
          unfold notional_check at h1
          simpa using h1
        have hden : optMem sg.symbol st.exclude_symbols = false := by
          unfold denylist_check at h3
          simpa using h3
        have h2or : st.allowed_symbols.isEmpty = true
            ∨ optMem sg.symbol st.allowed_symbols = true := by
          unfold allowlist_check at h2
          simpa using h2
        rw [hana]
        rcases h2or with hemp | hmem
        · simp [htr, hlt, hemp, hden]
        · simp [htr, hlt, hmem, hden]
      rw [hacc]
      rfl
  case nop =>
    intro hpr hpos
    have hlt : sg.quantity.getD 0 * sg.price.getD 0 < st.min_trade_size := by
      rw [hpr]
      simpa using hpos
    rw [hana]
    simp [hlt]
  case simp0 =>
    intro sc hval
    unfold SimpleCopyStrategy.analyze
    rw [hs]
    simp [htr, hval]

/-- Witness for C10 (amended): `oddSig` has no side, so the simple
strategy rejects it, yet the filtered strategy with a zero floor passes
it through unchanged. -/
theorem filtered_strategy_no_extra_validation_witness :
    (noFilterStrategy.analyze oddMd).isSome = true
    ∧ noFilterStrategy.analyze oddMd =
        some (filtered_result noFilterStrategy oddMd oddSig)
    ∧ SimpleCopyStrategy.analyze ⟨7⟩ oddMd = none := by
  have h := filtered_strategy_no_extra_validation noFilterStrategy oddMd
    oddSig rfl (by decide)
  have hpass : filter_checks_pass noFilterStrategy oddSig = true := by
    unfold filter_checks_pass notional_check allowlist_check denylist_check
    norm_num [oddSig, noFilterStrategy, optMem]
  exact ⟨h.1.mpr hpass, h.2.1 hpass, h.2.2.2 ⟨7⟩ (by decide)⟩

/-- C9: the manager is a two-state machine — `start` while running changes
nothing (no second monitor start), `stop` while stopped (including before
any start) changes nothing, `start` from stopped turns the flag on,
constructs the monitor with the three callbacks and starts it exactly
once, `stop` from running clears the flag and stops the monitor; hence
`start` twice in a row equals `start` once. -/
theorem manager_lifecycle (st : ManagerState) :
    (st.running = true → st.start = st)
    ∧ (st.running = false → st.stop = st)
    ∧ (st.running = false →
        st.start.running = true
        ∧ st.start.monitor = some startedMonitor
        ∧ st.start.monitor_starts = st.monitor_starts + 1)
    ∧ (st.running = true →
        st.stop.running = false
        ∧ (∀ m, st.monitor = some m →
            st.stop.monitor = some { m with running := false }))
    ∧ st.start.start = st.start
    ∧ st.start.start.monitor_starts = st.start.monitor_starts := by
  have hss : st.start.start = st.start := by
    by_cases h : st.running
    · have h1 : st.start = st := by
        unfold ManagerState.start
        rw [if_pos h]
      rw [h1]
      exact h1
    · have h1 : st.start =
          ⟨true, some startedMonitor, st.monitor_starts + 1⟩ := by
        unfold ManagerState.start
        rw [if_neg h]
      rw [h1]
      rfl
  refine ⟨?s1, ?s2, ?s3, ?s4, hss, by rw [hss]⟩
  case s1 =>
    intro h
    unfold ManagerState.start
    rw [if_pos h]
  case s2 =>
    intro h
    unfold ManagerState.stop
    rw [if_pos (by simp [h])]
  case s3 =>
    intro h
    unfold ManagerState.start
    rw [if_neg (by simp [h])]
    exact ⟨rfl, rfl, rfl⟩
  case s4 =>
    intro h
    unfold ManagerState.stop
    rw [if_neg (by simp [h])]
    exact ⟨rfl, fun m hm => by rw [hm]; rfl⟩

/-- Witness for C9 at the freshly constructed manager: stop before start
is a no-op, one start flips the state and starts the monitor once, and a
second start performs no further monitor start. -/
theorem manager_lifecycle_witness :
    ManagerState.init.stop = ManagerState.init
    ∧ ManagerState.init.start.running = true
    ∧ ManagerState.init.start.monitor = some startedMonitor
    ∧ ManagerState.init.start.monitor_starts = 1
    ∧ ManagerState.init.start.start = ManagerState.init.start
    ∧ ManagerState.init.start.start.monitor_starts = 1 := by
  have h := manager_lifecycle ManagerState.init
  have hs := (h.2.2.1 rfl)
  refine ⟨h.2.1 rfl, hs.1, hs.2.1, hs.2.2, h.2.2.2.2.1, ?last⟩
  case last =>
    rw [h.2.2.2.2.2]
    exact hs.2.2

end CopyBot
